import Mathlib

/-!
# Rogy-Engine: entity components, scene graph links and renderer settings archive

A shallow embedding of

* `Entity::AddComponent`, `Entity::GetComponent`, `Entity::HasComponent`,
  `Entity::RemoveComponent` (`Engine/scene/Entity.h`),
* `Renderer::serialize` (`Engine/renderer/renderer.h`),
* the reparenting operations `Entity::SetParent`, `Entity::AddChild`,
  `Entity::RemoveChild_F`, which `Entity.h` only declares.

Pointers are addresses (`Nat`), `0` is `nullptr`.  A dereference of `nullptr`
is undefined behaviour in the source; here it is a fault, the result `none`.
-/

namespace Rogy

/-! ## Components -/

/-- An address; `Component*` and `Entity*` in the source. -/
abbrev Ptr := Nat

/-- The null pointer. -/
def nullptr : Ptr := 0

/-- The two fields of `Component` (`RComponent.h`) that `Entity.h` touches:
the type tag compared with `T::TYPE_ID`, and the `removed` flag. -/
structure Component where
  type_id : Nat
  removed : Bool
  deriving DecidableEq

/-- Component memory: the object every non-null `Component*` points to.  The
methods of `Entity.h` never free a component, so the memory is total away from
`nullptr`. -/
abbrev Memory := Ptr → Component

/-- Read through a `Component*`: a fault on `nullptr`. -/
def Memory.load (mem : Memory) (p : Ptr) : Option Component :=
  if p = nullptr then none else some (mem p)

/-- Write through a `Component*`: a fault on `nullptr`. -/
def Memory.store (mem : Memory) (p : Ptr) (c : Component) : Option Memory :=
  if p = nullptr then none else some (fun q => if q = p then c else mem q)

/-- The fields of `class Entity` used by the operations below. -/
structure Entity where
  ID : Nat
  parent : Ptr
  m_components : List Ptr
  Children : List Ptr
  deriving DecidableEq

/-- Embedding of `Entity::AddComponent<T>(Component* comp)`, with `tid` for
`T::TYPE_ID`:
`if (!comp) return false; comp->type_id = T::TYPE_ID;`
`m_components.push_back(comp); return true;` -/
def AddComponent (tid : Nat) (comp : Ptr) (mem : Memory) (e : Entity) :
    Option (Bool × Memory × Entity) :=
  if comp = nullptr then some (false, mem, e)
  else do
    let c ← mem.load comp
    let mem1 ← mem.store comp { c with type_id := tid }
    some (true, mem1, { e with m_components := e.m_components ++ [comp] })

/-- The loop of `Entity::GetComponent<T>` over the elements of `m_components`
from the current index on: the first element whose `type_id` is `tid` is
returned, and `nullptr` when the loop runs off the end. -/
def GetComponent.loop (tid : Nat) (mem : Memory) : List Ptr → Option Ptr
  | [] => some nullptr
  | p :: rest => do
    let c ← mem.load p
    if c.type_id = tid then some p else GetComponent.loop tid mem rest

/-- Embedding of `Entity::GetComponent<T>()`; `static_cast<T*>` keeps the
address. -/
def GetComponent (tid : Nat) (mem : Memory) (e : Entity) : Option Ptr :=
  GetComponent.loop tid mem e.m_components

/-- The loop of `Entity::HasComponent<T>`. -/
def HasComponent.loop (tid : Nat) (mem : Memory) : List Ptr → Option Bool
  | [] => some false
  | p :: rest => do
    let c ← mem.load p
    if c.type_id = tid then some true else HasComponent.loop tid mem rest

/-- Embedding of `Entity::HasComponent<T>()`. -/
def HasComponent (tid : Nat) (mem : Memory) (e : Entity) : Option Bool :=
  HasComponent.loop tid mem e.m_components

/-- The loop of `Entity::RemoveComponent<T>`: `cs` is the whole of
`m_components`, the list argument is its part from index `i` on.  At the first
`i` with `m_components[i]->type_id == T::TYPE_ID` the component's `removed`
flag is set, index `i` is erased from `cs`, and the result is `true`. -/
def RemoveComponent.loop (tid : Nat) (mem : Memory) (cs : List Ptr) :
    List Ptr → Nat → Option (Bool × Memory × List Ptr)
  | [], _ => some (false, mem, cs)
  | p :: rest, i => do
    let c ← mem.load p
    if c.type_id = tid then
      let mem1 ← mem.store p { c with removed := true }
      some (true, mem1, cs.eraseIdx i)
    else RemoveComponent.loop tid mem cs rest (i + 1)

/-- Embedding of `Entity::RemoveComponent<T>()`. -/
def RemoveComponent (tid : Nat) (mem : Memory) (e : Entity) :
    Option (Bool × Memory × Entity) :=
  (RemoveComponent.loop tid mem e.m_components e.m_components 0).map
    fun r => (r.1, r.2.1, { e with m_components := r.2.2 })

/-- Memory in which address `p` holds a component of tag `t` when `p` is in
`tagged`, and of tag `0` otherwise; no `removed` flag is set. -/
def memOf (tagged : List (Ptr × Nat)) : Memory :=
  fun p => { type_id := (tagged.lookup p).getD 0, removed := false }

/-- An entity with three components at addresses `1`, `2`, `3`. -/
def entity3 : Entity :=
  { ID := 1, parent := 0, m_components := [1, 2, 3], Children := [] }

/-- Memory for `entity3`: tag `5` at address `1`, tag `7` at `2` and at `3`. -/
def mem3 : Memory := memOf [(1, 5), (2, 7), (3, 7)]

/-! ## Renderer settings archive -/

/-- A `float`, carried as the bit pattern the binary archive copies. -/
abbrev float := Nat

/-- One value of a cereal archive: what one `ar(x)` call moves. -/
inductive Value where
  | str (s : String)
  | bool (b : Bool)
  | num (f : float)
  deriving DecidableEq

/-- The contents of a cereal archive: the values still to be read (input
archive) or written so far (output archive). -/
abbrev Archive := List Value

/-- Input archive: `ar(s)` for a `std::string`; fails (cereal throws) when the
archive has no string next. -/
def Archive.readStr : Archive → Option (String × Archive)
  | Value.str s :: rest => some (s, rest)
  | _ => none

/-- Input archive: `ar(b)` for a `bool`. -/
def Archive.readBool : Archive → Option (Bool × Archive)
  | Value.bool b :: rest => some (b, rest)
  | _ => none

/-- Input archive: `ar(f)` for a `float`. -/
def Archive.readFloat : Archive → Option (float × Archive)
  | Value.num f :: rest => some (f, rest)
  | _ => none

/-- The three `float` members of `glm::vec3`. -/
structure vec3 where
  x : float
  y : float
  z : float
  deriving DecidableEq

/-- The class `RPostProcessing` (`postprocessing.h`, not among the sources),
taken as a parameter: its member `Use`, and what its `serialize` does with an
output archive (`save`) and with an input archive (`load`, which updates the
object in place). -/
structure RPostProcessing (PP : Type) where
  Use : PP → Bool
  setUse : PP → Bool → PP
  save : PP → Archive
  load : PP → Archive → Option (PP × Archive)

/-- The members of `class Renderer` that `Renderer::serialize` names, and the
two sky members declared next to `SkyPath`, which it does not name. -/
structure Renderer (PP : Type) where
  skyTexChange : Bool
  new_skyPath : String
  SkyPath : String
  AmbientLevel : float
  postProc : PP
  usefog : Bool
  fogColor : vec3
  fogNear : float
  fogFar : float

/-- Embedding of `Renderer::serialize(Archive&)` for an output archive: each
`ar(x)` appends `x`.  `SER_VERSION` is the macro of that name, defined outside
the sources. -/
def Renderer.serialize_out {PP : Type} (P : RPostProcessing PP) (SER_VERSION : String)
    (r : Renderer PP) (ar : Archive) : Archive :=
  let ar := ar ++ [Value.str SER_VERSION]
  let ar := ar ++ [Value.str r.SkyPath]
  let ar := ar ++ [Value.bool (P.Use r.postProc)]
  let ar := ar ++ P.save r.postProc
  let ar := ar ++ [Value.bool r.usefog]
  let ar := ar ++ [Value.num r.fogColor.x, Value.num r.fogColor.y, Value.num r.fogColor.z]
  let ar := ar ++ [Value.num r.fogNear]
  let ar := ar ++ [Value.num r.fogFar]
  ar ++ [Value.num r.AmbientLevel]

/-- Embedding of `Renderer::serialize(Archive&)` for an input archive: each
`ar(x)` reads the next value into `x`.  The first call, `ar(string(SER_VERSION))`,
reads a string into the temporary `string(SER_VERSION)`, which is then dropped:
no statement compares it with anything. -/
def Renderer.serialize_in {PP : Type} (P : RPostProcessing PP) (SER_VERSION : String)
    (r : Renderer PP) (ar : Archive) : Option (Renderer PP × Archive) := do
  let _tmp : String := SER_VERSION
  let (_tmp, ar) ← ar.readStr
  let (sky, ar) ← ar.readStr
  let r := { r with SkyPath := sky }
  let (use, ar) ← ar.readBool
  let r := { r with postProc := P.setUse r.postProc use }
  let (pp, ar) ← P.load r.postProc ar
  let r := { r with postProc := pp }
  let (fog, ar) ← ar.readBool
  let r := { r with usefog := fog }
  let (x, ar) ← ar.readFloat
  let (y, ar) ← ar.readFloat
  let (z, ar) ← ar.readFloat
  let r := { r with fogColor := { x := x, y := y, z := z } }
  let (near, ar) ← ar.readFloat
  let r := { r with fogNear := near }
  let (far, ar) ← ar.readFloat
  let r := { r with fogFar := far }
  let (amb, ar) ← ar.readFloat
  some ({ r with AmbientLevel := amb }, ar)

/-- A post-processing object whose own `serialize` archives its `float` setting
only and leaves `Use` alone: on load, `Use` is whatever the object held before,
so it is restored by the separate `ar(postProc.Use)` of `Renderer::serialize`
and by nothing else. -/
def settingOnlyPostProc : RPostProcessing (Bool × float) where
  Use := fun p => p.1
  setUse := fun p b => (b, p.2)
  save := fun p => [Value.num p.2]
  load := fun q ar => do
    let (f, ar) ← ar.readFloat
    some ((q.1, f), ar)

/-- A renderer with the default settings of `renderer.h` where it gives them
(`usefog = false`, other numbers as stand-in bit patterns). -/
def defaultRenderer : Renderer (Bool × float) where
  skyTexChange := false
  new_skyPath := ""
  SkyPath := ""
  AmbientLevel := 1
  postProc := (false, 0)
  usefog := false
  fogColor := { x := 1, y := 1, z := 1 }
  fogNear := 40
  fogFar := 300

/-- The values `Renderer::serialize` archives after the version string and the
post-processing object: `usefog`, the fog colour, the fog range, the ambient
level. -/
def fogValues {PP : Type} (s : Renderer PP) : Archive :=
  [Value.bool s.usefog, Value.num s.fogColor.x, Value.num s.fogColor.y,
    Value.num s.fogColor.z, Value.num s.fogNear, Value.num s.fogFar,
    Value.num s.AmbientLevel]

/-- A renderer state with every archived setting away from its default. -/
def foggyRenderer : Renderer (Bool × float) where
  skyTexChange := true
  new_skyPath := "res/new.hdr"
  SkyPath := "res/sky.hdr"
  AmbientLevel := 7
  postProc := (true, 9)
  usefog := true
  fogColor := { x := 2, y := 3, z := 4 }
  fogNear := 5
  fogFar := 6

/-! ## Scene graph links -/

/-- Entity memory: the live `Entity` objects by address; `none` where no entity
lives (never created, or deleted). -/
abbrev Scene := Ptr → Option Entity

/-- Read through an `Entity*`: a fault on `nullptr` and on a dead address. -/
def Scene.load (sc : Scene) (p : Ptr) : Option Entity :=
  if p = nullptr then none else sc p

/-- Overwrite the entity object at address `p`. -/
def Scene.store (sc : Scene) (p : Ptr) (n : Entity) : Scene :=
  fun q => if q = p then some n else sc q

/-- Modelled from the spec: the loop of `Entity::RemoveChild_F(EnttID o_id)`,
defined in `Entity.cpp`, which is not among the sources.  The spec has it
detach the child with identifier `o_id` from the child list "without
destruction"; as in `RemoveComponent`, the first matching index is erased.
`cs` is the whole of `Children`, the list argument its part from index `i`. -/
def RemoveChild_F.loop (sc : Scene) (o_id : Nat) (cs : List Ptr) :
    List Ptr → Nat → Option (List Ptr)
  | [], _ => some cs
  | c :: rest, i => do
    let ce ← sc.load c
    if ce.ID = o_id then some (cs.eraseIdx i)
    else RemoveChild_F.loop sc o_id cs rest (i + 1)

/-- Modelled from the spec: `Entity::RemoveChild_F(EnttID o_id)` of
`Entity.cpp`, called on the entity at `self`: "detaches without destruction
(used during reparenting)".  No entity object is deleted. -/
def RemoveChild_F (sc : Scene) (self : Ptr) (o_id : Nat) : Option Scene := do
  let s ← sc.load self
  let cs ← RemoveChild_F.loop sc o_id s.Children s.Children 0
  some (sc.store self { s with Children := cs })

/-- Modelled from the spec: `Entity::AddChild(Entity* mObj)` of `Entity.cpp`,
called on the entity at `self`: it "transfers ownership of a new or existing
entity into a parent's child list, updating the child's parent reference".
The entity leaves the list of the parent it had, if any, then is pushed onto
`Children` of `self`, then its `parent` is set to `self`; the result is
`mObj`. -/
def AddChild (sc : Scene) (self mObj : Ptr) : Option (Ptr × Scene) := do
  let m ← sc.load mObj
  let sc1 ← if m.parent = nullptr then some sc else RemoveChild_F sc m.parent m.ID
  let s ← sc1.load self
  let sc2 := sc1.store self { s with Children := s.Children ++ [mObj] }
  let m2 ← sc2.load mObj
  some (mObj, sc2.store mObj { m2 with parent := self })

/-- Modelled from the spec: `Entity::SetParent(Entity* target)` of
`Entity.cpp`, called on the entity at `self`: it "must detach from the old
parent's list before attaching to the new one".  A null target is refused with
`false`; otherwise the entity is handed to `target->AddChild(this)`, which
detaches and then attaches. -/
def SetParent (sc : Scene) (self target : Ptr) : Option (Bool × Scene) :=
  if target = nullptr then some (false, sc)
  else do
    let r ← AddChild sc target self
    some (true, r.2)

/-- The invariants of the spec's data model that reparenting relies on: a
child is a live entity whose parent pointer is the entity that lists it, no
child list names an entity twice, identifiers are unique among live entities,
and no entity is its own parent. -/
structure SceneTree (sc : Scene) : Prop where
  child_parent : ∀ q nq, sc.load q = some nq →
    ∀ c ∈ nq.Children, ∃ nc, sc.load c = some nc ∧ nc.parent = q
  children_nodup : ∀ q nq, sc.load q = some nq → nq.Children.Nodup
  id_unique : ∀ a b na nb, sc.load a = some na → sc.load b = some nb →
    na.ID = nb.ID → a = b
  not_own_parent : ∀ q nq, sc.load q = some nq → nq.parent ≠ q

/-- A scene of four entities: root `1` with children `2` and `3`, and `4` a
child of `2`. -/
def scene4 : Scene := fun p =>
  if p = 1 then some { ID := 10, parent := 0, m_components := [], Children := [2, 3] }
  else if p = 2 then some { ID := 20, parent := 1, m_components := [], Children := [4] }
  else if p = 3 then some { ID := 30, parent := 1, m_components := [], Children := [] }
  else if p = 4 then some { ID := 40, parent := 2, m_components := [5], Children := [] }
  else none

/-! ### Lemmas on the component loops -/

theorem Memory.load_of_ne (mem : Memory) {p : Ptr} (h : p ≠ nullptr) :
    mem.load p = some (mem p) := by
  simp [Memory.load, h]

theorem Memory.store_of_ne (mem : Memory) {p : Ptr} (h : p ≠ nullptr) (c : Component) :
    mem.store p c = some (fun q => if q = p then c else mem q) := by
  simp [Memory.store, h]

/-- A list that holds a component of tag `tid` splits at the first one. -/
theorem exists_first_tagged (tid : Nat) (mem : Memory) (cs : List Ptr)
    (hex : ∃ p ∈ cs, (mem p).type_id = tid) :
    ∃ pre p post, cs = pre ++ p :: post ∧ (mem p).type_id = tid ∧
      ∀ q ∈ pre, (mem q).type_id ≠ tid := by
  induction cs with
  | nil => simp at hex
  | cons a rest ih =>
    by_cases ha : (mem a).type_id = tid
    · exact ⟨[], a, rest, rfl, ha, by simp⟩
    · have hex2 : ∃ p ∈ rest, (mem p).type_id = tid := by
        obtain ⟨p, hp, ht⟩ := hex
        rcases List.mem_cons.mp hp with h | h
        · exact absurd (h ▸ ht) ha
        · exact ⟨p, h, ht⟩
      obtain ⟨pre, p, post, hcs, ht, hpre⟩ := ih hex2
      refine ⟨a :: pre, p, post, by simp [hcs], ht, ?_⟩
      intro q hq
      rcases List.mem_cons.mp hq with h | h
      · exact h ▸ ha
      · exact hpre q h

/-- Index form of a split at the first tagged element. -/
theorem split_index_facts (tid : Nat) (mem : Memory) (pre post : List Ptr) (p : Ptr)
    (hpre : ∀ q ∈ pre, (mem q).type_id ≠ tid) :
    (pre ++ p :: post)[pre.length]? = some p ∧
      ∀ j q, j < pre.length → (pre ++ p :: post)[j]? = some q → (mem q).type_id ≠ tid := by
  refine ⟨by rw [List.getElem?_append_right (le_refl _)]; simp, ?_⟩
  intro j q hj hq
  rw [List.getElem?_append_left hj] at hq
  exact hpre q (List.mem_iff_getElem?.mpr ⟨j, hq⟩)

theorem GetComponent_loop_absent (tid : Nat) (mem : Memory) (cs : List Ptr)
    (hv : nullptr ∉ cs) (hno : ∀ q ∈ cs, (mem q).type_id ≠ tid) :
    GetComponent.loop tid mem cs = some nullptr := by
  induction cs with
  | nil => rfl
  | cons a rest ih =>
    have ha : a ≠ nullptr := fun h => hv (h ▸ List.mem_cons_self _ _)
    have hr : nullptr ∉ rest := fun h => hv (List.mem_cons_of_mem _ h)
    have hta : (mem a).type_id ≠ tid := hno a (List.mem_cons_self _ _)
    simp [GetComponent.loop, Memory.load_of_ne mem ha, hta,
      ih hr (fun q hq => hno q (List.mem_cons_of_mem _ hq))]

theorem GetComponent_loop_first (tid : Nat) (mem : Memory) (pre post : List Ptr) (p : Ptr)
    (hv : nullptr ∉ pre ++ p :: post) (ht : (mem p).type_id = tid)
    (hpre : ∀ q ∈ pre, (mem q).type_id ≠ tid) :
    GetComponent.loop tid mem (pre ++ p :: post) = some p := by
  induction pre with
  | nil =>
    have hp : p ≠ nullptr := fun h => hv (by simp [h])
    simp [GetComponent.loop, Memory.load_of_ne mem hp, ht]
  | cons a rest ih =>
    have ha : a ≠ nullptr := fun h => hv (by simp [h])
    have hr : nullptr ∉ rest ++ p :: post := fun h => hv (by simp at h ⊢; tauto)
    have hta : (mem a).type_id ≠ tid := hpre a (List.mem_cons_self _ _)
    simp [GetComponent.loop, Memory.load_of_ne mem ha, hta,
      ih hr (fun q hq => hpre q (List.mem_cons_of_mem _ hq))]

theorem RemoveComponent_loop_absent (tid : Nat) (mem : Memory) (cs rest : List Ptr) (i : Nat)
    (hv : nullptr ∉ rest) (hno : ∀ q ∈ rest, (mem q).type_id ≠ tid) :
    RemoveComponent.loop tid mem cs rest i = some (false, mem, cs) := by
  induction rest generalizing i with
  | nil => rfl
  | cons a rest ih =>
    have ha : a ≠ nullptr := fun h => hv (h ▸ List.mem_cons_self _ _)
    have hr : nullptr ∉ rest := fun h => hv (List.mem_cons_of_mem _ h)
    have hta : (mem a).type_id ≠ tid := hno a (List.mem_cons_self _ _)
    simp [RemoveComponent.loop, Memory.load_of_ne mem ha, hta,
      ih (i + 1) hr (fun q hq => hno q (List.mem_cons_of_mem _ hq))]

theorem RemoveComponent_loop_first (tid : Nat) (mem : Memory) (cs pre post : List Ptr)
    (p : Ptr) (i : Nat)
    (hv : nullptr ∉ pre ++ p :: post) (ht : (mem p).type_id = tid)
    (hpre : ∀ q ∈ pre, (mem q).type_id ≠ tid) :
    RemoveComponent.loop tid mem cs (pre ++ p :: post) i =
      some (true, (fun q => if q = p then { mem p with removed := true } else mem q),
        cs.eraseIdx (i + pre.length)) := by
  induction pre generalizing i with
  | nil =>
    have hp : p ≠ nullptr := fun h => hv (by simp [h])
    simp [RemoveComponent.loop, Memory.load_of_ne mem hp, ht, Memory.store_of_ne mem hp]
  | cons a rest ih =>
    have ha : a ≠ nullptr := fun h => hv (by simp [h])
    have hr : nullptr ∉ rest ++ p :: post := fun h => hv (by simp at h ⊢; tauto)
    have hta : (mem a).type_id ≠ tid := hpre a (List.mem_cons_self _ _)
    simp [RemoveComponent.loop, Memory.load_of_ne mem ha, hta,
      ih (i + 1) hr (fun q hq => hpre q (List.mem_cons_of_mem _ hq))]
    congr 1
    omega

theorem AddComponent_of_ne (tid : Nat) (mem : Memory) (e : Entity) (comp : Ptr)
    (h : comp ≠ nullptr) :
    AddComponent tid comp mem e =
      some (true, (fun q => if q = comp then { mem comp with type_id := tid } else mem q),
        { e with m_components := e.m_components ++ [comp] }) := by
  simp [AddComponent, h, Memory.load_of_ne mem h, Memory.store_of_ne mem h]

/-- The component list of an entity built with `AddComponent` holds no null
pointer: the call keeps the property. -/
theorem AddComponent_keeps_no_null (tid : Nat) (comp : Ptr) (mem : Memory) (e : Entity)
    (hv : nullptr ∉ e.m_components) (r : Bool × Memory × Entity)
    (hr : AddComponent tid comp mem e = some r) : nullptr ∉ r.2.2.m_components := by
  by_cases h : comp = nullptr
  · have : r = (false, mem, e) := by
      simp [AddComponent, h] at hr
      exact hr.symm
    rw [this]
    exact hv
  · rw [AddComponent_of_ne tid mem e comp h] at hr
    rw [← Option.some.inj hr]
    simp only [List.mem_append, List.mem_singleton, not_or]
    exact ⟨hv, fun h2 => h h2.symm⟩

/-- `RemoveComponent` keeps the component list free of null pointers. -/
theorem RemoveComponent_keeps_no_null (tid : Nat) (mem : Memory) (e : Entity)
    (hv : nullptr ∉ e.m_components) (r : Bool × Memory × Entity)
    (hr : RemoveComponent tid mem e = some r) : nullptr ∉ r.2.2.m_components := by
  unfold RemoveComponent at hr
  by_cases hex : ∃ p ∈ e.m_components, (mem p).type_id = tid
  · obtain ⟨pre, p, post, hcs, ht, hpre⟩ := exists_first_tagged tid mem _ hex
    have hloop := RemoveComponent_loop_first tid mem e.m_components pre post p 0
      (hcs ▸ hv) ht hpre
    rw [← hcs] at hloop
    rw [hloop] at hr
    rw [← Option.some.inj hr]
    exact fun h => hv ((List.eraseIdx_sublist _ _).subset h)
  · have hno : ∀ p ∈ e.m_components, (mem p).type_id ≠ tid :=
      fun p hp ht => hex ⟨p, hp, ht⟩
    rw [RemoveComponent_loop_absent tid mem _ _ 0 hv hno] at hr
    rw [← Option.some.inj hr]
    exact hv

/-! ## Component claims -/

/-- C1: on an entity whose component list holds no null pointer,
`GetComponent<T>()` returns (it does not fault), its result is `nullptr`
exactly when no listed component has `type_id = T::TYPE_ID`, and on the empty
list the result is `nullptr`. -/
theorem GetComponent_null_iff_absent (tid : Nat) (mem : Memory) (e : Entity)
    (hv : nullptr ∉ e.m_components) :
    ∃ r, GetComponent tid mem e = some r ∧
      (r = nullptr ↔ ∀ p ∈ e.m_components, (mem p).type_id ≠ tid) ∧
      (e.m_components = [] → r = nullptr) := by
  by_cases hex : ∃ p ∈ e.m_components, (mem p).type_id = tid
  · obtain ⟨pre, p, post, hcs, ht, hpre⟩ := exists_first_tagged tid mem _ hex
    have hp : p ≠ nullptr := fun h => hv (by rw [hcs]; simp [h])
    refine ⟨p, ?_, ?_, ?_⟩
    · unfold GetComponent
      rw [hcs]
      exact GetComponent_loop_first tid mem pre post p (hcs ▸ hv) ht hpre
    · constructor
      · intro h; exact absurd h hp
      · intro h
        exact absurd ht (h p (by rw [hcs]; simp))
    · intro h
      rw [h] at hcs
      simp at hcs
  · have hno : ∀ p ∈ e.m_components, (mem p).type_id ≠ tid :=
      fun p hp ht => hex ⟨p, hp, ht⟩
    exact ⟨nullptr, GetComponent_loop_absent tid mem _ hv hno, ⟨fun _ => hno, fun _ => rfl⟩,
      fun _ => rfl⟩

theorem GetComponent_null_iff_absent_witness :
    nullptr ∉ entity3.m_components ∧
    ∃ r, GetComponent 9 mem3 entity3 = some r ∧
      (r = nullptr ↔ ∀ p ∈ entity3.m_components, (mem3 p).type_id ≠ 9) ∧
      (entity3.m_components = [] → r = nullptr) :=
  ⟨by decide, GetComponent_null_iff_absent 9 mem3 entity3 (by decide)⟩

/-- C3: when the component list (free of null pointers) holds a component of
`type_id = T::TYPE_ID`, `GetComponent<T>()` returns the one at the smallest
such index `i`, whatever follows index `i`. -/
theorem GetComponent_first_match (tid : Nat) (mem : Memory) (e : Entity)
    (hv : nullptr ∉ e.m_components)
    (hex : ∃ p ∈ e.m_components, (mem p).type_id = tid) :
    ∃ (i : Nat) (p : Ptr), e.m_components[i]? = some p ∧ (mem p).type_id = tid ∧
      (∀ j q, j < i → e.m_components[j]? = some q → (mem q).type_id ≠ tid) ∧
      GetComponent tid mem e = some p := by
  obtain ⟨pre, p, post, hcs, ht, hpre⟩ := exists_first_tagged tid mem _ hex
  have hidx := split_index_facts tid mem pre post p hpre
  refine ⟨pre.length, p, hcs ▸ hidx.1, ht, hcs ▸ hidx.2, ?_⟩
  unfold GetComponent
  rw [hcs]
  exact GetComponent_loop_first tid mem pre post p (hcs ▸ hv) ht hpre

theorem GetComponent_first_match_witness :
    nullptr ∉ entity3.m_components ∧
    (∃ p ∈ entity3.m_components, (mem3 p).type_id = 7) ∧
    ∃ (i : Nat) (p : Ptr), entity3.m_components[i]? = some p ∧ (mem3 p).type_id = 7 ∧
      (∀ j q, j < i → entity3.m_components[j]? = some q → (mem3 q).type_id ≠ 7) ∧
      GetComponent 7 mem3 entity3 = some p :=
  ⟨by decide, ⟨2, by decide⟩,
    GetComponent_first_match 7 mem3 entity3 (by decide) ⟨2, by decide⟩⟩

/-- C4: on an entity (component list free of null pointers) with no component
of `type_id = T::TYPE_ID`, `RemoveComponent<T>()` returns `false` and leaves
the component list and every component object as they were. -/
theorem RemoveComponent_absent (tid : Nat) (mem : Memory) (e : Entity)
    (hv : nullptr ∉ e.m_components)
    (hno : ∀ p ∈ e.m_components, (mem p).type_id ≠ tid) :
    RemoveComponent tid mem e = some (false, mem, e) := by
  unfold RemoveComponent
  rw [RemoveComponent_loop_absent tid mem _ _ 0 hv hno]
  rfl

theorem RemoveComponent_absent_witness :
    nullptr ∉ entity3.m_components ∧
    (∀ p ∈ entity3.m_components, (mem3 p).type_id ≠ 9) ∧
    RemoveComponent 9 mem3 entity3 = some (false, mem3, entity3) :=
  ⟨by decide, by decide, RemoveComponent_absent 9 mem3 entity3 (by decide) (by decide)⟩

/-- C9: on an entity (component list free of null pointers) that holds a
component of `type_id = T::TYPE_ID`, `RemoveComponent<T>()` returns `true`,
sets the `removed` flag of the component `p` at the smallest such index `i`
and changes no other component object, and the new list is the old one with
index `i` erased: one element shorter, the elements before `i` followed by the
elements after `i`, so later components of the type stay listed. -/
theorem RemoveComponent_first_match (tid : Nat) (mem : Memory) (e : Entity)
    (hv : nullptr ∉ e.m_components)
    (hex : ∃ p ∈ e.m_components, (mem p).type_id = tid) :
    ∃ (i : Nat) (p : Ptr), e.m_components[i]? = some p ∧ (mem p).type_id = tid ∧
      (∀ j q, j < i → e.m_components[j]? = some q → (mem q).type_id ≠ tid) ∧
      RemoveComponent tid mem e =
        some (true, (fun q => if q = p then { mem p with removed := true } else mem q),
          { e with m_components := e.m_components.eraseIdx i }) ∧
      (e.m_components.eraseIdx i).length + 1 = e.m_components.length ∧
      e.m_components.eraseIdx i = e.m_components.take i ++ e.m_components.drop (i + 1) ∧
      (∀ q ∈ e.m_components.drop (i + 1), q ∈ e.m_components.eraseIdx i) := by
  obtain ⟨pre, p, post, hcs, ht, hpre⟩ := exists_first_tagged tid mem _ hex
  have hidx := split_index_facts tid mem pre post p hpre
  have hlt : pre.length < e.m_components.length := by rw [hcs]; simp
  refine ⟨pre.length, p, hcs ▸ hidx.1, ht, hcs ▸ hidx.2, ?_, ?_, ?_, ?_⟩
  · unfold RemoveComponent
    have hloop := RemoveComponent_loop_first tid mem e.m_components pre post p 0
      (hcs ▸ hv) ht hpre
    rw [← hcs] at hloop
    rw [hloop]
    simp
  · rw [List.length_eraseIdx, if_pos hlt]
    omega
  · exact List.eraseIdx_eq_take_drop_succ _ _
  · intro q hq
    rw [List.eraseIdx_eq_take_drop_succ]
    exact List.mem_append_right _ hq

theorem RemoveComponent_first_match_witness :
    nullptr ∉ entity3.m_components ∧
    (∃ p ∈ entity3.m_components, (mem3 p).type_id = 7) ∧
    ∃ (i : Nat) (p : Ptr), entity3.m_components[i]? = some p ∧ (mem3 p).type_id = 7 ∧
      (∀ j q, j < i → entity3.m_components[j]? = some q → (mem3 q).type_id ≠ 7) ∧
      RemoveComponent 7 mem3 entity3 =
        some (true, (fun q => if q = p then { mem3 p with removed := true } else mem3 q),
          { entity3 with m_components := entity3.m_components.eraseIdx i }) ∧
      (entity3.m_components.eraseIdx i).length + 1 = entity3.m_components.length ∧
      entity3.m_components.eraseIdx i =
        entity3.m_components.take i ++ entity3.m_components.drop (i + 1) ∧
      (∀ q ∈ entity3.m_components.drop (i + 1), q ∈ entity3.m_components.eraseIdx i) :=
  ⟨by decide, ⟨2, by decide⟩,
    RemoveComponent_first_match 7 mem3 entity3 (by decide) ⟨2, by decide⟩⟩

/-- Appending a component of tag `tid` to a list that holds one, in a memory
that keeps every tag `tid`, gives a list with at least two of them. -/
theorem countP_tag_append (tid : Nat) (mem mem1 : Memory) (cs : List Ptr) (comp : Ptr)
    (hdup : ∃ p ∈ cs, (mem p).type_id = tid) (hcomp : (mem1 comp).type_id = tid)
    (hkeep : ∀ x, (mem x).type_id = tid → (mem1 x).type_id = tid) :
    2 ≤ (cs ++ [comp]).countP (fun p => decide ((mem1 p).type_id = tid)) := by
  have hold : 1 ≤ cs.countP (fun p => decide ((mem1 p).type_id = tid)) := by
    obtain ⟨p, hp, ht⟩ := hdup
    exact List.countP_pos_iff.mpr ⟨p, hp, by simpa using hkeep p ht⟩
  have hlast : List.countP (fun p => decide ((mem1 p).type_id = tid)) [comp] = 1 := by
    simp [hcomp]
  rw [List.countP_append, hlast]
  omega

/-- C2 fails on the code: `entity3` holds components of tag `7` (at `2` and
`3`), the component at address `4` is not null, and `AddComponent<T>` with
`T::TYPE_ID = 7` returns `true`, not `false`. -/
theorem AddComponent_duplicate_not_false :
    (∃ p ∈ entity3.m_components, (mem3 p).type_id = 7) ∧ (4 : Ptr) ≠ nullptr ∧
      (AddComponent 7 4 mem3 entity3).map (fun r => r.1) = some true ∧
      ¬ ∃ mem1 e1, AddComponent 7 4 mem3 entity3 = some (false, mem1, e1) := by
  refine ⟨⟨2, by decide⟩, by decide, by decide, ?_⟩
  rintro ⟨mem1, e1, h⟩
  rw [AddComponent_of_ne 7 mem3 entity3 4 (by decide)] at h
  simp at h

/-- C2 as amended: on an entity that already holds a component of
`type_id = T::TYPE_ID`, `AddComponent<T>(comp)` with a non-null `comp` returns
`true` and appends `comp`; the duplicate is not reported, and the entity then
lists at least two components of the type. -/
theorem AddComponent_duplicate_accepted (tid : Nat) (mem : Memory) (e : Entity) (comp : Ptr)
    (hdup : ∃ p ∈ e.m_components, (mem p).type_id = tid) (h : comp ≠ nullptr) :
    ∃ mem1 e1, AddComponent tid comp mem e = some (true, mem1, e1) ∧
      e1.m_components = e.m_components ++ [comp] ∧
      2 ≤ e1.m_components.countP (fun p => decide ((mem1 p).type_id = tid)) := by
  refine ⟨_, _, AddComponent_of_ne tid mem e comp h, rfl, ?_⟩
  apply countP_tag_append tid mem _ e.m_components comp hdup
  · simp
  · intro x hx
    by_cases hxc : x = comp
    · simp [hxc]
    · simpa [hxc] using hx

theorem AddComponent_duplicate_accepted_witness :
    (∃ p ∈ entity3.m_components, (mem3 p).type_id = 7) ∧ (4 : Ptr) ≠ nullptr ∧
    ∃ mem1 e1, AddComponent 7 4 mem3 entity3 = some (true, mem1, e1) ∧
      e1.m_components = entity3.m_components ++ [4] ∧
      2 ≤ e1.m_components.countP (fun p => decide ((mem1 p).type_id = 7)) :=
  ⟨⟨2, by decide⟩, by decide,
    AddComponent_duplicate_accepted 7 mem3 entity3 4 ⟨2, by decide⟩ (by decide)⟩

/-- C7: for every entity and every non-null `comp`, `AddComponent<T>(comp)`
returns `true`, writes `T::TYPE_ID` into `comp->type_id` and makes the
component list the old list followed by `comp`, with no look at the tags
already listed; a second `AddComponent<T>` with another non-null component
leaves both in the list, both of type `T`. -/
theorem AddComponent_appends (tid : Nat) (mem : Memory) (e : Entity) (comp : Ptr)
    (h : comp ≠ nullptr) :
    AddComponent tid comp mem e =
        some (true, (fun q => if q = comp then { mem comp with type_id := tid } else mem q),
          { e with m_components := e.m_components ++ [comp] }) ∧
      ∀ comp2 : Ptr, comp2 ≠ nullptr → comp2 ≠ comp →
        ∃ mem2 e2,
          (AddComponent tid comp mem e).bind (fun r => AddComponent tid comp2 r.2.1 r.2.2) =
            some (true, mem2, e2) ∧
          e2.m_components = e.m_components ++ [comp, comp2] ∧
          (mem2 comp).type_id = tid ∧ (mem2 comp2).type_id = tid := by
  refine ⟨AddComponent_of_ne tid mem e comp h, ?_⟩
  intro comp2 h2 hne
  rw [AddComponent_of_ne tid mem e comp h]
  simp only [Option.some_bind]
  rw [AddComponent_of_ne tid _ _ comp2 h2]
  refine ⟨_, _, rfl, by simp, ?_, ?_⟩
  · simp [Ne.symm hne]
  · simp

theorem AddComponent_appends_witness :
    (4 : Ptr) ≠ nullptr ∧
    (AddComponent 7 4 mem3 entity3 =
        some (true, (fun q => if q = 4 then { mem3 4 with type_id := 7 } else mem3 q),
          { entity3 with m_components := entity3.m_components ++ [4] }) ∧
      ∀ comp2 : Ptr, comp2 ≠ nullptr → comp2 ≠ 4 →
        ∃ mem2 e2,
          (AddComponent 7 4 mem3 entity3).bind (fun r => AddComponent 7 comp2 r.2.1 r.2.2) =
            some (true, mem2, e2) ∧
          e2.m_components = entity3.m_components ++ [4, comp2] ∧
          (mem2 4).type_id = 7 ∧ (mem2 comp2).type_id = 7) :=
  ⟨by decide, AddComponent_appends 7 mem3 entity3 4 (by decide)⟩

/-- C10: `AddComponent<T>(comp)` always returns, its result is `false` exactly
when `comp` is null, and the call with a null `comp` leaves the component list
and every component object as they were (nothing is read or written through
the null pointer). -/
theorem AddComponent_false_iff_null (tid : Nat) (mem : Memory) (e : Entity) (comp : Ptr) :
    (∃ r, AddComponent tid comp mem e = some r ∧ (r.1 = false ↔ comp = nullptr)) ∧
      AddComponent tid nullptr mem e = some (false, mem, e) := by
  constructor
  · by_cases h : comp = nullptr
    · exact ⟨(false, mem, e), by simp [AddComponent, h], by simp [h]⟩
    · exact ⟨_, AddComponent_of_ne tid mem e comp h, by simp [h]⟩
  · simp [AddComponent]

/-! ## Renderer settings claims -/

theorem Renderer.serialize_out_eq {PP : Type} (P : RPostProcessing PP) (ver : String)
    (s : Renderer PP) (ar : Archive) :
    Renderer.serialize_out P ver s ar =
      ar ++ (Value.str ver :: Value.str s.SkyPath :: Value.bool (P.Use s.postProc) ::
        (P.save s.postProc ++ fogValues s)) := by
  simp [Renderer.serialize_out, fogValues]

/-- Loading an archive that holds any string `v`, then the settings of `s`,
when the post-processing object reads back what it wrote into an object whose
`Use` already agrees: the `Use` read by `ar(postProc.Use)` is what makes the
loaded object agree. -/
theorem Renderer.serialize_in_settings_of_use {PP : Type} (P : RPostProcessing PP)
    (hUse : ∀ (q : PP) (b : Bool), P.Use (P.setUse q b) = b)
    (hP : ∀ (p q : PP) (rest : Archive), P.Use q = P.Use p →
      P.load q (P.save p ++ rest) = some (p, rest))
    (ver v : String) (s r0 : Renderer PP) (rest : Archive) :
    Renderer.serialize_in P ver r0
        (Value.str v :: Value.str s.SkyPath :: Value.bool (P.Use s.postProc) ::
          (P.save s.postProc ++ (fogValues s ++ rest))) =
      some ({ r0 with SkyPath := s.SkyPath, postProc := s.postProc, usefog := s.usefog,
                      fogColor := s.fogColor, fogNear := s.fogNear, fogFar := s.fogFar,
                      AmbientLevel := s.AmbientLevel }, rest) := by
  unfold Renderer.serialize_in
  dsimp only [Archive.readStr, Option.bind_eq_bind, Option.some_bind, Archive.readBool]
  rw [hP s.postProc (P.setUse r0.postProc (P.Use s.postProc)) _ (hUse _ _)]
  rfl

theorem settingOnlyPostProc_use (q : Bool × float) (b : Bool) :
    settingOnlyPostProc.Use (settingOnlyPostProc.setUse q b) = b := rfl

theorem settingOnlyPostProc_round_trip (p q : Bool × float) (rest : Archive)
    (h : settingOnlyPostProc.Use q = settingOnlyPostProc.Use p) :
    settingOnlyPostProc.load q (settingOnlyPostProc.save p ++ rest) = some (p, rest) := by
  have h1 : q.1 = p.1 := h
  show some ((q.1, p.2), rest) = some (p, rest)
  rw [h1]

/-- C6: the stream `Renderer::serialize` writes for a renderer `s` is the
version string, `SkyPath`, `postProc.Use`, what `postProc` archives, `usefog`,
`fogColor.x`, `fogColor.y`, `fogColor.z`, `fogNear`, `fogFar`, `AmbientLevel`,
in this order; loading that stream into any renderer `r0` succeeds, uses the
stream up, and gives a renderer whose archived settings are those of `s` (its
other members are those of `r0`).  Of the post-processing class it is assumed
that storing into `Use` is read back by `Use`, and that its `serialize` reads
back what it wrote when the object loaded into already has the same `Use`:
whether or not that class archives `Use` itself, the flag is restored by the
`ar(postProc.Use)` step. -/
theorem serialize_round_trip {PP : Type} (P : RPostProcessing PP)
    (hUse : ∀ (q : PP) (b : Bool), P.Use (P.setUse q b) = b)
    (hP : ∀ (p q : PP) (rest : Archive), P.Use q = P.Use p →
      P.load q (P.save p ++ rest) = some (p, rest))
    (SER_VERSION : String) (s r0 : Renderer PP) :
    Renderer.serialize_out P SER_VERSION s [] =
        Value.str SER_VERSION :: Value.str s.SkyPath :: Value.bool (P.Use s.postProc) ::
          (P.save s.postProc ++
            [Value.bool s.usefog, Value.num s.fogColor.x, Value.num s.fogColor.y,
              Value.num s.fogColor.z, Value.num s.fogNear, Value.num s.fogFar,
              Value.num s.AmbientLevel]) ∧
      ∃ r, Renderer.serialize_in P SER_VERSION r0 (Renderer.serialize_out P SER_VERSION s []) =
          some (r, []) ∧
        r.SkyPath = s.SkyPath ∧ P.Use r.postProc = P.Use s.postProc ∧
        r.postProc = s.postProc ∧ r.usefog = s.usefog ∧
        r.fogColor.x = s.fogColor.x ∧ r.fogColor.y = s.fogColor.y ∧
        r.fogColor.z = s.fogColor.z ∧ r.fogNear = s.fogNear ∧ r.fogFar = s.fogFar ∧
        r.AmbientLevel = s.AmbientLevel ∧
        r.skyTexChange = r0.skyTexChange ∧ r.new_skyPath = r0.new_skyPath := by
  have hout := Renderer.serialize_out_eq P SER_VERSION s []
  have hin := Renderer.serialize_in_settings_of_use P hUse hP SER_VERSION SER_VERSION s r0 []
  rw [List.append_nil] at hin
  rw [List.nil_append] at hout
  refine ⟨by rw [hout]; rfl, _, by rw [hout]; exact hin, ?_⟩
  simp

theorem serialize_round_trip_witness :
    (∀ (q : Bool × float) (b : Bool),
        settingOnlyPostProc.Use (settingOnlyPostProc.setUse q b) = b) ∧
    (∀ (p q : Bool × float) (rest : Archive),
        settingOnlyPostProc.Use q = settingOnlyPostProc.Use p →
        settingOnlyPostProc.load q (settingOnlyPostProc.save p ++ rest) = some (p, rest)) ∧
    (Renderer.serialize_out settingOnlyPostProc "1.0" foggyRenderer [] =
        Value.str "1.0" :: Value.str foggyRenderer.SkyPath ::
          Value.bool (settingOnlyPostProc.Use foggyRenderer.postProc) ::
          (settingOnlyPostProc.save foggyRenderer.postProc ++
            [Value.bool foggyRenderer.usefog, Value.num foggyRenderer.fogColor.x,
              Value.num foggyRenderer.fogColor.y, Value.num foggyRenderer.fogColor.z,
              Value.num foggyRenderer.fogNear, Value.num foggyRenderer.fogFar,
              Value.num foggyRenderer.AmbientLevel]) ∧
      ∃ r, Renderer.serialize_in settingOnlyPostProc "1.0" defaultRenderer
            (Renderer.serialize_out settingOnlyPostProc "1.0" foggyRenderer []) =
          some (r, []) ∧
        r.SkyPath = foggyRenderer.SkyPath ∧
        settingOnlyPostProc.Use r.postProc = settingOnlyPostProc.Use foggyRenderer.postProc ∧
        r.postProc = foggyRenderer.postProc ∧ r.usefog = foggyRenderer.usefog ∧
        r.fogColor.x = foggyRenderer.fogColor.x ∧ r.fogColor.y = foggyRenderer.fogColor.y ∧
        r.fogColor.z = foggyRenderer.fogColor.z ∧ r.fogNear = foggyRenderer.fogNear ∧
        r.fogFar = foggyRenderer.fogFar ∧ r.AmbientLevel = foggyRenderer.AmbientLevel ∧
        r.skyTexChange = defaultRenderer.skyTexChange ∧
        r.new_skyPath = defaultRenderer.new_skyPath) :=
  ⟨settingOnlyPostProc_use, settingOnlyPostProc_round_trip,
    serialize_round_trip settingOnlyPostProc settingOnlyPostProc_use
      settingOnlyPostProc_round_trip "1.0" foggyRenderer defaultRenderer⟩

/-! ## Scene graph claims -/

theorem Scene.ne_null_of_load {sc : Scene} {p : Ptr} {n : Entity} (h : sc.load p = some n) :
    p ≠ nullptr := by
  intro hp
  simp [Scene.load, hp] at h

theorem Scene.load_store_same (sc : Scene) {p : Ptr} (n : Entity) (hp : p ≠ nullptr) :
    (sc.store p n).load p = some n := by
  simp [Scene.load, Scene.store, hp]

theorem Scene.load_store_ne (sc : Scene) {p q : Ptr} (n : Entity) (hq : q ≠ p) :
    (sc.store p n).load q = sc.load q := by
  simp [Scene.load, Scene.store, hq]

/-- The loop of `RemoveChild_F` stops at the first child whose identifier is
`o_id` and erases its index. -/
theorem RemoveChild_F_loop_first (sc : Scene) (o_id : Nat) (cs pre post : List Ptr)
    (c : Ptr) (nc : Entity) (i : Nat)
    (hpre : ∀ q ∈ pre, ∃ nq, sc.load q = some nq ∧ nq.ID ≠ o_id)
    (hc : sc.load c = some nc) (hid : nc.ID = o_id) :
    RemoveChild_F.loop sc o_id cs (pre ++ c :: post) i = some (cs.eraseIdx (i + pre.length)) := by
  induction pre generalizing i with
  | nil => simp [RemoveChild_F.loop, hc, hid]
  | cons a rest ih =>
    obtain ⟨na, hna, hida⟩ := hpre a (List.mem_cons_self _ _)
    simp [RemoveChild_F.loop, hna, hida,
      ih (i + 1) (fun q hq => hpre q (List.mem_cons_of_mem _ hq))]
    congr 1
    omega

/-- What `t->AddChild(e)` computes in a scene tree where `e` is a child of
`p`, with `p`, `t`, `e` three different entities. -/
theorem AddChild_reparent (sc : Scene) (e p t : Ptr) (ne np nt : Entity)
    (pre post : List Ptr)
    (hT : SceneTree sc) (hp : sc.load p = some np) (hsplit : np.Children = pre ++ e :: post)
    (hne : sc.load e = some ne) (ht : sc.load t = some nt) (hte : t ≠ e) (htp : t ≠ p) :
    AddChild sc t e = some (e,
      ((sc.store p { np with Children := pre ++ post }).store t
        { nt with Children := nt.Children ++ [e] }).store e { ne with parent := t }) := by
  have hemem : e ∈ np.Children := by rw [hsplit]; simp
  obtain ⟨ne2, hne2, hpar⟩ := hT.child_parent p np hp e hemem
  have hne_eq : ne2 = ne := Option.some.inj (hne2.symm.trans hne)
  subst hne_eq
  have hpnull : p ≠ nullptr := Scene.ne_null_of_load hp
  have hep : e ≠ p := fun h => hT.not_own_parent e ne2 hne (by rw [hpar, h])
  have hnd : (pre ++ e :: post).Nodup := hsplit ▸ hT.children_nodup p np hp
  have hepre : e ∉ pre := by
    intro h
    have := (List.nodup_append.mp hnd).2.2 h (List.mem_cons_self _ _)
    exact this
  have hloop : RemoveChild_F.loop sc ne2.ID np.Children np.Children 0 = some (pre ++ post) := by
    have hpre : ∀ q ∈ pre, ∃ nq, sc.load q = some nq ∧ nq.ID ≠ ne2.ID := by
      intro q hq
      obtain ⟨nq, hnq, _⟩ := hT.child_parent p np hp q (by rw [hsplit]; simp [hq])
      refine ⟨nq, hnq, fun hid => ?_⟩
      have : q = e := hT.id_unique q e nq ne2 hnq hne hid
      exact hepre (this ▸ hq)
    have h := RemoveChild_F_loop_first sc ne2.ID np.Children pre post e ne2 0 hpre hne rfl
    rw [← hsplit] at h
    rw [h, hsplit, Nat.zero_add, List.eraseIdx_append_of_length_le (le_refl _)]
    simp
  have hrem : RemoveChild_F sc p ne2.ID =
      some (sc.store p { np with Children := pre ++ post }) := by
    simp [RemoveChild_F, hp, hloop]
  unfold AddChild
  simp only [hne, Option.bind_eq_bind, Option.some_bind, hpar, if_neg hpnull, hrem]
  rw [Scene.load_store_ne _ _ htp, ht]
  simp only [Option.some_bind]
  rw [Scene.load_store_ne _ _ (Ne.symm hte), Scene.load_store_ne _ _ hep, hne]
  rfl

/-- C8: in a scene tree, for an entity `e` listed in the `Children` of `p`
and a live entity `t` other than `p` and `e`, `e.SetParent(t)` returns `true`
and `t.AddChild(e)` returns `e`, both with the same scene: there `e` is listed
in the `Children` of `t` (once) and of no other live entity, `e.parent` is `t`
and nothing else of `e` changed, `e` is no longer listed under `p`, and every
entity that was live is still live. -/
theorem SetParent_single_parent (sc : Scene) (e p t : Ptr) (np nt : Entity)
    (hT : SceneTree sc) (hp : sc.load p = some np) (he : e ∈ np.Children)
    (ht : sc.load t = some nt) (hte : t ≠ e) (htp : t ≠ p) :
    ∃ sc1 ne,
      SetParent sc e t = some (true, sc1) ∧ AddChild sc t e = some (e, sc1) ∧
      (∀ q nq, sc1.load q = some nq → (e ∈ nq.Children ↔ q = t)) ∧
      (∃ nt1, sc1.load t = some nt1 ∧ nt1.Children.count e = 1) ∧
      sc.load e = some ne ∧ sc1.load e = some { ne with parent := t } ∧
      (∃ np1, sc1.load p = some np1 ∧ e ∉ np1.Children) ∧
      (∀ q, (sc1.load q).isSome = (sc.load q).isSome) := by
  obtain ⟨ne, hne, hpar⟩ := hT.child_parent p np hp e he
  obtain ⟨pre, post, hsplit⟩ := List.append_of_mem he
  have hadd := AddChild_reparent sc e p t ne np nt pre post hT hp hsplit hne ht hte htp
  have hpnull : p ≠ nullptr := Scene.ne_null_of_load hp
  have htnull : t ≠ nullptr := Scene.ne_null_of_load ht
  have henull : e ≠ nullptr := Scene.ne_null_of_load hne
  have hep : e ≠ p := fun h => hT.not_own_parent e ne hne (by rw [hpar, h])
  have hnd : (pre ++ e :: post).Nodup := hsplit ▸ hT.children_nodup p np hp
  have hepp : e ∉ pre ++ post := by
    intro h
    rcases List.mem_append.mp h with h | h
    · exact (List.nodup_append.mp hnd).2.2 h (List.mem_cons_self _ _)
    · exact (List.nodup_cons.mp (List.nodup_append.mp hnd).2.1).1 h
  -- `e` is listed only under its parent `p`
  have honly : ∀ q nq, sc.load q = some nq → e ∈ nq.Children → q = p := by
    intro q nq hq hmem
    obtain ⟨ne2, hne2, hpar2⟩ := hT.child_parent q nq hq e hmem
    have : ne2 = ne := Option.some.inj (hne2.symm.trans hne)
    rw [← hpar2, this, hpar]
  have hent : e ∉ nt.Children := fun h => htp (honly t nt ht h)
  have hene : e ∉ ne.Children := fun h => hep (honly e ne hne h)
  refine ⟨_, ne, ?_, hadd, ?_, ?_, hne, ?_, ?_, ?_⟩
  · simp [SetParent, htnull, hadd]
  · intro q nq hq
    by_cases hqe : q = e
    · subst hqe
      rw [Scene.load_store_same _ _ henull] at hq
      have : nq.Children = ne.Children := by rw [← Option.some.inj hq]
      rw [this]
      exact ⟨fun h => absurd h hene, fun h => absurd h.symm hte⟩
    · rw [Scene.load_store_ne _ _ hqe] at hq
      by_cases hqt : q = t
      · subst hqt
        rw [Scene.load_store_same _ _ htnull] at hq
        have : nq.Children = nt.Children ++ [e] := by rw [← Option.some.inj hq]
        rw [this]
        simp
      · rw [Scene.load_store_ne _ _ hqt] at hq
        by_cases hqp : q = p
        · subst hqp
          rw [Scene.load_store_same _ _ hpnull] at hq
          have : nq.Children = pre ++ post := by rw [← Option.some.inj hq]
          rw [this]
          exact ⟨fun h => absurd h hepp, fun h => absurd h hqt⟩
        · rw [Scene.load_store_ne _ _ hqp] at hq
          exact ⟨fun h => absurd (honly q nq hq h) hqp, fun h => absurd h hqt⟩
  · refine ⟨{ nt with Children := nt.Children ++ [e] }, ?_, ?_⟩
    · rw [Scene.load_store_ne _ _ hte, Scene.load_store_same _ _ htnull]
    · simp [List.count_append, List.count_eq_zero_of_not_mem hent]
  · rw [Scene.load_store_same _ _ henull]
  · refine ⟨{ np with Children := pre ++ post }, ?_, hepp⟩
    rw [Scene.load_store_ne _ _ (Ne.symm hep), Scene.load_store_ne _ _ (Ne.symm htp),
      Scene.load_store_same _ _ hpnull]
  · intro q
    by_cases hqe : q = e
    · subst hqe
      rw [Scene.load_store_same _ _ henull, hne]
      rfl
    · rw [Scene.load_store_ne _ _ hqe]
      by_cases hqt : q = t
      · subst hqt
        rw [Scene.load_store_same _ _ htnull, ht]
        rfl
      · rw [Scene.load_store_ne _ _ hqt]
        by_cases hqp : q = p
        · subst hqp
          rw [Scene.load_store_same _ _ hpnull, hp]
          rfl
        · rw [Scene.load_store_ne _ _ hqp]

theorem scene4_load {q : Ptr} {nq : Entity} (h : scene4.load q = some nq) :
    (q = 1 ∧ nq = { ID := 10, parent := 0, m_components := [], Children := [2, 3] }) ∨
    (q = 2 ∧ nq = { ID := 20, parent := 1, m_components := [], Children := [4] }) ∨
    (q = 3 ∧ nq = { ID := 30, parent := 1, m_components := [], Children := [] }) ∨
    (q = 4 ∧ nq = { ID := 40, parent := 2, m_components := [5], Children := [] }) := by
  unfold Scene.load scene4 at h
  split_ifs at h with h0 h1 h2 h3 h4
  · exact Or.inl ⟨h1, (Option.some.inj h).symm⟩
  · exact Or.inr (Or.inl ⟨h2, (Option.some.inj h).symm⟩)
  · exact Or.inr (Or.inr (Or.inl ⟨h3, (Option.some.inj h).symm⟩))
  · exact Or.inr (Or.inr (Or.inr ⟨h4, (Option.some.inj h).symm⟩))

theorem scene4_tree : SceneTree scene4 where
  child_parent := by
    intro q nq hq c hc
    rcases scene4_load hq with ⟨rfl, rfl⟩ | ⟨rfl, rfl⟩ | ⟨rfl, rfl⟩ | ⟨rfl, rfl⟩
    · simp at hc
      rcases hc with rfl | rfl
      · exact ⟨_, rfl, rfl⟩
      · exact ⟨_, rfl, rfl⟩
    · simp at hc
      subst hc
      exact ⟨_, rfl, rfl⟩
    · simp at hc
    · simp at hc
  children_nodup := by
    intro q nq hq
    rcases scene4_load hq with ⟨rfl, rfl⟩ | ⟨rfl, rfl⟩ | ⟨rfl, rfl⟩ | ⟨rfl, rfl⟩ <;> decide
  id_unique := by
    intro a b na nb ha hb hid
    rcases scene4_load ha with ⟨rfl, rfl⟩ | ⟨rfl, rfl⟩ | ⟨rfl, rfl⟩ | ⟨rfl, rfl⟩ <;>
      rcases scene4_load hb with ⟨rfl, rfl⟩ | ⟨rfl, rfl⟩ | ⟨rfl, rfl⟩ | ⟨rfl, rfl⟩ <;>
      simp at hid ⊢
  not_own_parent := by
    intro q nq hq
    rcases scene4_load hq with ⟨rfl, rfl⟩ | ⟨rfl, rfl⟩ | ⟨rfl, rfl⟩ | ⟨rfl, rfl⟩ <;> decide

theorem SetParent_single_parent_witness :
    SceneTree scene4 ∧
    scene4.load 2 = some { ID := 20, parent := 1, m_components := [], Children := [4] } ∧
    (4 : Ptr) ∈ [4] ∧
    scene4.load 3 = some { ID := 30, parent := 1, m_components := [], Children := [] } ∧
    (3 : Ptr) ≠ 4 ∧ (3 : Ptr) ≠ 2 ∧
    ∃ sc1 ne,
      SetParent scene4 4 3 = some (true, sc1) ∧ AddChild scene4 3 4 = some (4, sc1) ∧
      (∀ q nq, sc1.load q = some nq → ((4 : Ptr) ∈ nq.Children ↔ q = 3)) ∧
      (∃ nt1, sc1.load 3 = some nt1 ∧ nt1.Children.count 4 = 1) ∧
      scene4.load 4 = some ne ∧ sc1.load 4 = some { ne with parent := 3 } ∧
      (∃ np1, sc1.load 2 = some np1 ∧ (4 : Ptr) ∉ np1.Children) ∧
      (∀ q, (sc1.load q).isSome = (scene4.load q).isSome) :=
  ⟨scene4_tree, rfl, by decide, rfl, by decide, by decide,
    SetParent_single_parent scene4 4 2 3 _ _ scene4_tree rfl (by decide) rfl (by decide)
      (by decide)⟩

end Rogy
